import Mathlib

/-!
Shallow embedding of `src/jsonEditorProvider.ts` (FlowSquad/vs-code-extension-vue-template).

The provider mediates between a text document and a webview: it classifies
document-change events (undo = reason 1, redo = reason 2, plain = reason
undefined), suppresses the echo of webview-originated edits, buffers updates
while the webview is hidden, validates webview submissions as JSON before
committing them (`JSON.parse` + `JSON.stringify(_, undefined, 4)`), and closes
duplicate text editors of the same file.

The JavaScript built-ins `JSON.parse` and `JSON.stringify(v, undefined, 4)`
are modelled by an executable parser and pretty-printer over an inductive
`Json` type.  Numbers are modelled as integers (float printing is outside the
embedding); strings are Lean strings of unicode scalars (JS uses UTF-16 code
units).  Whitespace accepted by the parser is exactly the four JSON
whitespace characters, as in `JSON.parse`.
-/

namespace JsonEditor

/-- The four JSON whitespace characters accepted between tokens by `JSON.parse`. -/
def isWsChar (c : Char) : Bool :=
  c = ' ' || c = '\t' || c = '\n' || c = '\r'

/-- Whitespace removed by JavaScript `String.prototype.trim`: the ECMAScript
WhiteSpace and LineTerminator sets (tab, VT, FF, space, NBSP, ZWNBSP, the
Unicode space separators, LF, CR, LS, PS) -- a superset of JSON whitespace. -/
def isTrimWsChar (c : Char) : Bool :=
  c.toNat = 32 || c.toNat = 9 || c.toNat = 10 || c.toNat = 13 || c.toNat = 11 ||
  c.toNat = 12 || c.toNat = 160 || c.toNat = 5760 ||
  (8192 ≤ c.toNat && c.toNat ≤ 8202) || c.toNat = 8232 || c.toNat = 8233 ||
  c.toNat = 8239 || c.toNat = 8287 || c.toNat = 12288 || c.toNat = 65279

/-- Models `content.trim().length === 0`. -/
def isBlank (s : String) : Bool :=
  s.data.all isTrimWsChar

def skipWs (cs : List Char) : List Char :=
  cs.dropWhile isWsChar

def isDigitChar (c : Char) : Bool :=
  48 ≤ c.toNat && c.toNat ≤ 57

/-- JSON values as produced by `JSON.parse` (numbers restricted to integers). -/
inductive Json where
  | null : Json
  | bool (b : Bool) : Json
  | num (n : Int) : Json
  | str (s : String) : Json
  | arr (elems : List Json) : Json
  | obj (members : List (String × Json)) : Json

/-- Decimal digit character for `n < 10`; hex digit character for `n < 16`
(lower case, as emitted by the JS serializer). -/
def digitChar (n : Nat) : Char :=
  if n < 10 then Char.ofNat (48 + n) else Char.ofNat (87 + n)

def hexVal (c : Char) : Option Nat :=
  if 48 ≤ c.toNat ∧ c.toNat ≤ 57 then some (c.toNat - 48)
  else if 97 ≤ c.toNat ∧ c.toNat ≤ 102 then some (c.toNat - 87)
  else if 65 ≤ c.toNat ∧ c.toNat ≤ 70 then some (c.toNat - 55)
  else none

/-- Decimal digits of `n`, most significant first (fuelled; `fuel > n` suffices). -/
def natDigitsAux : Nat → Nat → List Char
  | 0, _ => []
  | f + 1, n =>
    if n < 10 then [digitChar n]
    else natDigitsAux f (n / 10) ++ [digitChar (n % 10)]

def natDigits (n : Nat) : List Char :=
  natDigitsAux (n + 1) n

/-- Characters of an integer, as `String(n)` in JavaScript prints integral numbers. -/
def intChars (n : Int) : List Char :=
  if n < 0 then '-' :: natDigits n.natAbs else natDigits n.natAbs

/-- Escape of one character inside a JSON string literal, as in the
ECMAScript `QuoteJSONString` operation. -/
def escapeChar (c : Char) : List Char :=
  if c = '\x22' then ['\\', '\x22']
  else if c = '\\' then ['\\', '\\']
  else if c = '\x08' then ['\\', 'b']
  else if c = '\x0c' then ['\\', 'f']
  else if c = '\n' then ['\\', 'n']
  else if c = '\r' then ['\\', 'r']
  else if c = '\t' then ['\\', 't']
  else if c.toNat < 32 then
    ['\\', 'u', '0', '0', digitChar (c.toNat / 16), digitChar (c.toNat % 16)]
  else [c]

def escList : List Char → List Char
  | [] => []
  | c :: cs => escapeChar c ++ escList cs

/-- A quoted JSON string literal for the string `s`. -/
def escString (s : String) : List Char :=
  '\x22' :: escList s.data ++ ['\x22']

/-- `n` spaces: the indentation produced by a gap of four spaces per level. -/
def pad (n : Nat) : List Char :=
  List.replicate n ' '

mutual

/-- Characters of `JSON.stringify(v, undefined, 4)` at indentation level `ind`. -/
def strV : Nat → Json → List Char
  | _, .null => ['n', 'u', 'l', 'l']
  | _, .bool true => ['t', 'r', 'u', 'e']
  | _, .bool false => ['f', 'a', 'l', 's', 'e']
  | _, .num n => intChars n
  | _, .str s => escString s
  | _, .arr [] => ['[', ']']
  | ind, .arr (x :: xs) =>
    '[' :: '\n' :: pad (ind + 4) ++ strV (ind + 4) x ++ strElemsTail (ind + 4) xs ++
      '\n' :: pad ind ++ [']']
  | _, .obj [] => ['\x7b', '\x7d']
  | ind, .obj ((k, v) :: ms) =>
    '\x7b' :: '\n' :: pad (ind + 4) ++ (escString k ++ ':' :: ' ' :: strV (ind + 4) v) ++
      strMembersTail (ind + 4) ms ++ '\n' :: pad ind ++ ['\x7d']

/-- Remaining array elements, each preceded by the `,` + newline + indent separator. -/
def strElemsTail (ind : Nat) : List Json → List Char
  | [] => []
  | x :: xs => ',' :: '\n' :: pad ind ++ strV ind x ++ strElemsTail ind xs

/-- Remaining object members, each preceded by the `,` + newline + indent separator. -/
def strMembersTail (ind : Nat) : List (String × Json) → List Char
  | [] => []
  | (k, v) :: ms =>
    ',' :: '\n' :: pad ind ++ (escString k ++ ':' :: ' ' :: strV ind v) ++ strMembersTail ind ms

end

/-- `JSON.stringify(v, undefined, 4)` as a Lean string. -/
def stringifyTop (v : Json) : String :=
  String.mk (strV 0 v)

def mapConsStr (c : Char) : Option (List Char × List Char) → Option (List Char × List Char)
  | some (s, r) => some (c :: s, r)
  | none => none

/-- Body of a JSON string literal after the opening quote: yields the decoded
characters and the input after the closing quote.  Mirrors the `JSON.parse`
string grammar: raw control characters are rejected, the eight named escapes
and `\uXXXX` are decoded. -/
def parseStringBody : List Char → Option (List Char × List Char)
  | [] => none
  | c :: cs =>
    if c = '\x22' then some ([], cs)
    else if c = '\\' then
      match cs with
      | [] => none
      | e :: cs2 =>
        if e = '\x22' then mapConsStr '\x22' (parseStringBody cs2)
        else if e = '\\' then mapConsStr '\\' (parseStringBody cs2)
        else if e = '/' then mapConsStr '/' (parseStringBody cs2)
        else if e = 'b' then mapConsStr '\x08' (parseStringBody cs2)
        else if e = 'f' then mapConsStr '\x0c' (parseStringBody cs2)
        else if e = 'n' then mapConsStr '\n' (parseStringBody cs2)
        else if e = 'r' then mapConsStr '\r' (parseStringBody cs2)
        else if e = 't' then mapConsStr '\t' (parseStringBody cs2)
        else if e = 'u' then
          match cs2 with
          | h1 :: h2 :: h3 :: h4 :: cs3 =>
            match hexVal h1, hexVal h2, hexVal h3, hexVal h4 with
            | some a, some b, some c2, some d =>
              mapConsStr (Char.ofNat (4096 * a + 256 * b + 16 * c2 + d)) (parseStringBody cs3)
            | _, _, _, _ => none
          | _ => none
        else none
    else if c.toNat < 32 then none
    else mapConsStr c (parseStringBody cs)

def digitsVal (ds : List Char) : Nat :=
  ds.foldl (fun a c => 10 * a + (c.toNat - 48)) 0

/-- An unsigned JSON number token.  Rejects leading zeros as the JSON grammar
does; a following `.`/`e`/`E` would start the fraction/exponent of a float,
which the integer model does not represent, so such inputs are not parsed. -/
def parsePosNumber (cs : List Char) : Option (Nat × List Char) :=
  let ds := cs.takeWhile isDigitChar
  let rest := cs.dropWhile isDigitChar
  if ds = [] then none
  else if 1 < ds.length ∧ ds.head? = some '0' then none
  else match rest with
  | c :: _ => if c = '.' ∨ c = 'e' ∨ c = 'E' then none else some (digitsVal ds, rest)
  | [] => some (digitsVal ds, [])

def parseNumber (cs : List Char) : Option (Json × List Char) :=
  match cs with
  | '-' :: cs1 =>
    match parsePosNumber cs1 with
    | some (n, r) => some (.num (-(n : Int)), r)
    | none => none
  | _ =>
    match parsePosNumber cs with
    | some (n, r) => some (.num (n : Int), r)
    | none => none

mutual

/-- Fuelled recursive-descent JSON value: the model of `JSON.parse`.
Every recursive call decreases the fuel; `input length + 1` fuel is always
sufficient for inputs produced by the serializer (proved below). -/
def parseVal : Nat → List Char → Option (Json × List Char)
  | 0, _ => none
  | f + 1, cs =>
    match skipWs cs with
    | [] => none
    | c :: cs1 =>
      if c = 'n' then
        match cs1 with
        | 'u' :: 'l' :: 'l' :: r => some (.null, r)
        | _ => none
      else if c = 't' then
        match cs1 with
        | 'r' :: 'u' :: 'e' :: r => some (.bool true, r)
        | _ => none
      else if c = 'f' then
        match cs1 with
        | 'a' :: 'l' :: 's' :: 'e' :: r => some (.bool false, r)
        | _ => none
      else if c = '\x22' then
        match parseStringBody cs1 with
        | some (sc, r) => some (.str (String.mk sc), r)
        | none => none
      else if c = '[' then
        match skipWs cs1 with
        | [] => none
        | d :: ds =>
          if d = ']' then some (.arr [], ds)
          else
            match parseVal f (d :: ds) with
            | some (v, r1) =>
              match parseElemsTail f r1 with
              | some (vs, r2) => some (.arr (v :: vs), r2)
              | none => none
            | none => none
      else if c = '\x7b' then
        match skipWs cs1 with
        | [] => none
        | d :: ds =>
          if d = '\x7d' then some (.obj [], ds)
          else if d = '\x22' then
            match parseStringBody ds with
            | some (k, r1) =>
              match skipWs r1 with
              | [] => none
              | g :: gs =>
                if g = ':' then
                  match parseVal f gs with
                  | some (v, r3) =>
                    match parseMembersTail f r3 with
                    | some (ms, r4) => some (.obj ((String.mk k, v) :: ms), r4)
                    | none => none
                  | none => none
                else none
            | none => none
          else none
      else if c = '-' ∨ isDigitChar c then parseNumber (c :: cs1)
      else none

/-- After one array element: either the closing `]` or `,` and further elements. -/
def parseElemsTail : Nat → List Char → Option (List Json × List Char)
  | 0, _ => none
  | f + 1, cs =>
    match skipWs cs with
    | [] => none
    | d :: ds =>
      if d = ']' then some ([], ds)
      else if d = ',' then
        match parseVal f ds with
        | some (v, r1) =>
          match parseElemsTail f r1 with
          | some (vs, r2) => some (v :: vs, r2)
          | none => none
        | none => none
      else none

/-- After one object member: either the closing brace or `,` and further members. -/
def parseMembersTail : Nat → List Char → Option (List (String × Json) × List Char)
  | 0, _ => none
  | f + 1, cs =>
    match skipWs cs with
    | [] => none
    | d :: ds =>
      if d = '\x7d' then some ([], ds)
      else if d = ',' then
        match skipWs ds with
        | [] => none
        | e :: es =>
          if e = '\x22' then
            match parseStringBody es with
            | some (k, r1) =>
              match skipWs r1 with
              | [] => none
              | g :: gs =>
                if g = ':' then
                  match parseVal f gs with
                  | some (v, r3) =>
                    match parseMembersTail f r3 with
                    | some (ms, r4) => some ((String.mk k, v) :: ms, r4)
                    | none => none
                  | none => none
                else none
            | none => none
          else none
      else none

end

mutual

/-- Fuel sufficient for `parseVal` to traverse a serialized value:
one unit per `parseVal` / `parseElemsTail` / `parseMembersTail` activation. -/
def costV : Json → Nat
  | .null => 1
  | .bool _ => 1
  | .num _ => 1
  | .str _ => 1
  | .arr [] => 1
  | .arr (x :: xs) => 1 + costV x + costT xs
  | .obj [] => 1
  | .obj ((_, v) :: ms) => 1 + costV v + costM ms

/-- Fuel sufficient for `parseElemsTail` on the serialized tail of an array. -/
def costT : List Json → Nat
  | [] => 1
  | x :: xs => 1 + costV x + costT xs

/-- Fuel sufficient for `parseMembersTail` on the serialized tail of an object. -/
def costM : List (String × Json) → Nat
  | [] => 1
  | (_, v) :: ms => 1 + costV v + costM ms

end

/-- `rest` does not start with a character that could extend a number token:
the serializer never puts a digit, `.`, `e` or `E` right after a value. -/
def numBoundary : List Char → Bool
  | [] => true
  | c :: _ => !(isDigitChar c || c = '.' || c = 'e' || c = 'E')

/-- The model of `JSON.parse`: a single JSON value with only whitespace around it. -/
def JSONparse (s : String) : Option Json :=
  match parseVal (s.data.length + 1) s.data with
  | some (v, rest) => if skipWs rest = [] then some v else none
  | none => none

/-- `getContentAsJson`: blank content yields the JavaScript *string* value
`'{}'` (the code returns the string literal, not a parsed object); otherwise
the content is parsed, and a parse failure raises (modelled as `error`; the
accompanying `isValidJson = false` side effect is applied by the caller's
model below, as in the `catch` block of the source). -/
def getContentAsJson (content : String) : Except Unit Json :=
  if isBlank content then Except.ok (Json.str "\x7b\x7d")
  else
    match JSONparse content with
    | some v => Except.ok v
    | none => Except.error ()

/-- The validate-and-normalize pipeline of `setChangesToDocument`: the text
that a `FromView` submission commits to the document,
`JSON.stringify(getContentAsJson(content), undefined, 4)`, or `none` when the
validator throws. -/
def normalizedCommitText (content : String) : Option String :=
  match getContentAsJson content with
  | Except.ok j => some (stringifyTop j)
  | Except.error _ => none

/-- The message types posted to the webview by `updateWebview` and the two
direct `postMessage` calls (`vuejsoneditor.undo` / `.redo` / `.updateFromExtension`). -/
inductive MsgType where
  | undo
  | redo
  | updateFromExtension
deriving DecidableEq

/-- A `webviewPanel.webview.postMessage({type, text})` payload: host → view. -/
structure OutMsg where
  msgType : MsgType
  text : String
deriving DecidableEq

/-- Messages received from the webview (`onDidReceiveMessage`). -/
inductive ViewMsg where
  | updateFromWebview (content : String)
  | noValidJson

/-- `e.reason` of a `TextDocumentChangeEvent`: 1 = undo, 2 = redo, undefined = plain. -/
inductive Reason where
  | undo
  | redo
  | plain
deriving DecidableEq

/-- Runtime errors that can escape the message handler: the `Error` thrown by
`getContentAsJson` on invalid JSON, and the `TypeError` from calling
`jsonErrorMsg.dispose()` when `jsonErrorMsg` was never assigned. -/
inductive Fault where
  | uncaughtThrow
  | disposeUninitialized
deriving DecidableEq

/-- The per-session mutable state of `resolveCustomTextEditor` together with
the provider-level `isValidJson` flag.  `handleSet` records whether the local
`jsonErrorMsg` variable has ever been assigned; `noticeActive` whether the
status-bar notice it refers to is currently shown; `visible` is
`webviewPanel.visible`; `docText` the text of the underlying document. -/
structure SessionState where
  isBuffer : Bool
  isUpdateFromWebview : Bool
  isValidJson : Bool
  handleSet : Bool
  noticeActive : Bool
  visible : Bool
  docText : String
deriving DecidableEq

/-- Session state right after `resolveCustomTextEditor` sets up its locals:
the panel being resolved is visible, no buffered update, no pending webview
edit, `isValidJson` starts `true`, `jsonErrorMsg` unassigned. -/
def initState (docText : String) : SessionState :=
  { isBuffer := false
    isUpdateFromWebview := false
    isValidJson := true
    handleSet := false
    noticeActive := false
    visible := true
    docText := docText }

/-- The `onDidChangeTextDocument` subscription, for an event on the session's
own document with non-empty `contentChanges`.  `t` is the document text after
the mutation (messages re-read it via `document.getText()`). -/
def onDidChangeTextDocument (s : SessionState) (r : Reason) (t : String) :
    SessionState × List OutMsg :=
  let s := { s with docText := t }
  if !s.visible then ({ s with isBuffer := true }, [])
  else
    match r with
    | Reason.undo => (s, [⟨MsgType.undo, s.docText⟩])
    | Reason.redo => (s, [⟨MsgType.redo, s.docText⟩])
    | Reason.plain =>
      let msgs := if !s.isUpdateFromWebview then [⟨MsgType.updateFromExtension, s.docText⟩] else []
      ({ s with isUpdateFromWebview := false }, msgs)

/-- The `onDidChangeViewState` handler: on regaining visibility with a
buffered update, post the document's current text and clear the buffer flag. -/
def onDidChangeViewState (s : SessionState) (visible : Bool) : SessionState × List OutMsg :=
  let s := { s with visible := visible }
  if s.visible && s.isBuffer then
    ({ s with isBuffer := false }, [⟨MsgType.updateFromExtension, s.docText⟩])
  else (s, [])

/-- The `onDidReceiveMessage` handler.  `updateFromWebview` sets the echo
flag, then runs `setChangesToDocument` (validate via `getContentAsJson`,
pretty-print, full-range replace); on parse failure `isValidJson` is set
`false` and the thrown `Error` escapes the handler before the notice-clearing
branch runs.  On success, if `isValidJson` is `false` the handler calls
`jsonErrorMsg.dispose()` — a `TypeError` if `jsonErrorMsg` was never assigned
— and resets the flag.  `noValidJson` shows the status-bar notice once. -/
def onDidReceiveMessage (s : SessionState) (m : ViewMsg) :
    SessionState × Option Fault :=
  match m with
  | ViewMsg.updateFromWebview content =>
    let s := { s with isUpdateFromWebview := true }
    match getContentAsJson content with
    | Except.error _ => ({ s with isValidJson := false }, some Fault.uncaughtThrow)
    | Except.ok j =>
      let s := { s with docText := stringifyTop j }
      if !s.isValidJson then
        if s.handleSet then ({ s with noticeActive := false, isValidJson := true }, none)
        else (s, some Fault.disposeUninitialized)
      else (s, none)
  | ViewMsg.noValidJson =>
    if s.isValidJson then
      ({ s with handleSet := true, noticeActive := true, isValidJson := false }, none)
    else (s, none)

/-- The serialized event alphabet dispatched to the session by the host. -/
inductive Event where
  | docChanged (r : Reason) (newText : String)
  | viewStateChanged (visible : Bool)
  | viewMessage (m : ViewMsg)

/-- One host-dispatched callback. -/
def step (s : SessionState) (e : Event) : SessionState × List OutMsg × Option Fault :=
  match e with
  | Event.docChanged r t =>
    let r1 := onDidChangeTextDocument s r t
    (r1.1, r1.2, none)
  | Event.viewStateChanged v =>
    let r1 := onDidChangeViewState s v
    (r1.1, r1.2, none)
  | Event.viewMessage m =>
    let r1 := onDidReceiveMessage s m
    (r1.1, [], r1.2)

/-- A sequence of callbacks; collects all messages posted to the view. -/
def steps : SessionState → List Event → SessionState × List OutMsg
  | s, [] => (s, [])
  | s, e :: es =>
    let r1 := step s e
    let r2 := steps r1.1 es
    (r2.1, r1.2.1 ++ r2.2)

/-- A visible text editor as observed through `vscode.window.visibleTextEditors`
(the custom webview editor itself is not a text editor and never appears here). -/
structure VisibleEditor where
  fileName : String
deriving DecidableEq

/-- The editors closed by the `onDidChangeVisibleTextEditors` handler: when
more than one editor is visible in total, every editor whose `fileName`
matches the session's document is shown and then closed. -/
def editorsToClose (docFileName : String) (editors : List VisibleEditor) : List VisibleEditor :=
  if 1 < editors.length then editors.filter (fun ed => ed.fileName == docFileName) else []

/-- The text editors still visible after the handler has run. -/
def remainingEditors (docFileName : String) (editors : List VisibleEditor) : List VisibleEditor :=
  if 1 < editors.length then editors.filter (fun ed => ed.fileName != docFileName) else editors

/-- The initial `postMessage` at the end of `resolveCustomTextEditor`: it
sends `document.getText()` verbatim. -/
def initialMessage (docText : String) : OutMsg :=
  ⟨MsgType.updateFromExtension, docText⟩

/-- The session state after the view has reported `noValidJson`: notice shown
and recorded, validity flag down, handle assigned. -/
def noticedState : SessionState :=
  { initState "d" with handleSet := true, noticeActive := true, isValidJson := false }

/-! Round-trip development: the serializer `strV` / `stringifyTop` and the
parser `parseVal` / `JSONparse` are inverse on serializer output.  This backs
the idempotence of the validate-and-normalize pipeline (claim C6). -/

theorem skipWs_cons_not_ws {c : Char} (cs : List Char) (h : isWsChar c = false) :
    skipWs (c :: cs) = c :: cs := by
  simp [skipWs, List.dropWhile_cons, h]

theorem skipWs_ws_append (ws cs : List Char) (h : ∀ c ∈ ws, isWsChar c = true) :
    skipWs (ws ++ cs) = skipWs cs := by
  induction ws with
  | nil => rfl
  | cons a as ih =>
    have ha : isWsChar a = true := h a (by simp)
    have ih2 := ih (fun c hc => h c (by simp [hc]))
    simp only [skipWs, List.cons_append, List.dropWhile_cons, ha, if_true] at ih2 ⊢
    exact ih2

theorem pad_ws (n : Nat) : ∀ c ∈ pad n, isWsChar c = true := by
  intro c hc
  rw [pad, List.mem_replicate] at hc
  rw [hc.2]; rfl

theorem nl_pad_ws (n : Nat) : ∀ c ∈ '\n' :: pad n, isWsChar c = true := by
  intro c hc
  rcases List.mem_cons.mp hc with h | h
  · rw [h]; rfl
  · exact pad_ws n c h

theorem isDigitChar_iff {c : Char} : isDigitChar c = true ↔ 48 ≤ c.toNat ∧ c.toNat ≤ 57 := by
  simp [isDigitChar]

theorem digitChar_isDigit {n : Nat} (h : n < 10) : isDigitChar (digitChar n) = true := by
  interval_cases n <;> decide

theorem digitChar_toNat {n : Nat} (h : n < 10) : (digitChar n).toNat = 48 + n := by
  interval_cases n <;> decide

theorem digitChar_ne_zero {n : Nat} (h1 : 1 ≤ n) (h2 : n < 10) : digitChar n ≠ '0' := by
  interval_cases n <;> decide

theorem hexVal_digitChar {n : Nat} (h : n < 16) : hexVal (digitChar n) = some n := by
  interval_cases n <;> decide

theorem isDigitChar_not_special {c : Char} (h : isDigitChar c = true) :
    isWsChar c = false ∧ c ≠ 'n' ∧ c ≠ 't' ∧ c ≠ 'f' ∧ c ≠ '\x22' ∧ c ≠ '[' ∧ c ≠ '\x7b' ∧
      c ≠ '-' ∧ c ≠ ']' ∧ c ≠ '\x7d' ∧ c ≠ ',' := by
  rw [isDigitChar_iff] at h
  refine ⟨?_, ?_, ?_, ?_, ?_, ?_, ?_, ?_, ?_, ?_, ?_⟩
  · rcases hw : isWsChar c
    · rfl
    · exfalso
      simp [isWsChar] at hw
      rcases hw with ((h1 | h1) | h1) | h1 <;> subst h1 <;> exact absurd h (by decide)
  all_goals intro h1; subst h1; exact absurd h (by decide)



theorem natDigitsAux_spec (n : Nat) : ∀ f, n < f →
    (∀ c ∈ natDigitsAux f n, isDigitChar c = true) ∧
    digitsVal (natDigitsAux f n) = n ∧
    ∃ d ds, natDigitsAux f n = d :: ds ∧ (n ≠ 0 → d ≠ '0') ∧ (n < 10 → ds = []) := by
  induction n using Nat.strong_induction_on with
  | _ n ih =>
    intro f hf
    obtain ⟨f, rfl⟩ : ∃ g, f = g + 1 := ⟨f - 1, by omega⟩
    by_cases h10 : n < 10
    · rw [natDigitsAux, if_pos h10]
      refine ⟨?_, ?_, digitChar n, [], rfl, ?_, fun _ => rfl⟩
      · intro c hc
        simp only [List.mem_singleton] at hc
        subst hc; exact digitChar_isDigit h10
      · simp only [digitsVal, List.foldl_cons, List.foldl_nil]
        rw [digitChar_toNat h10]; omega
      · intro hn0; exact digitChar_ne_zero (by omega) h10
    · rw [natDigitsAux, if_neg h10]
      have hdiv : n / 10 < n := Nat.div_lt_self (by omega) (by omega)
      obtain ⟨hall, hval, d, ds, heq, hd0, _⟩ := ih (n / 10) hdiv f (by omega)
      have hmod : n % 10 < 10 := Nat.mod_lt _ (by omega)
      refine ⟨?_, ?_, d, ds ++ [digitChar (n % 10)], ?_, fun _ => hd0 (by omega),
        fun h => absurd h h10⟩
      · intro c hc
        rcases List.mem_append.mp hc with hc | hc
        · exact hall c hc
        · simp only [List.mem_singleton] at hc
          subst hc; exact digitChar_isDigit hmod
      · rw [digitsVal, List.foldl_append]
        have : List.foldl (fun a c => 10 * a + (c.toNat - 48)) 0 (natDigitsAux f (n / 10))
            = n / 10 := hval
        rw [this]
        simp only [List.foldl_cons, List.foldl_nil]
        rw [digitChar_toNat hmod]
        omega
      · rw [heq]; rfl

theorem natDigits_spec (n : Nat) :
    (∀ c ∈ natDigits n, isDigitChar c = true) ∧
    digitsVal (natDigits n) = n ∧
    ∃ d ds, natDigits n = d :: ds ∧ (n ≠ 0 → d ≠ '0') ∧ (n < 10 → ds = []) :=
  natDigitsAux_spec n (n + 1) (by omega)

theorem natDigits_no_leading_zero (n : Nat) :
    ¬(1 < (natDigits n).length ∧ (natDigits n).head? = some '0') := by
  obtain ⟨hall, hval, d, ds, heq, hd0, hsmall⟩ := natDigits_spec n
  rintro ⟨hlen, hhead⟩
  rw [heq] at hlen hhead
  simp only [List.head?_cons, Option.some_inj] at hhead
  by_cases hn : n = 0
  · subst hn
    rw [hsmall (by omega)] at hlen
    simp at hlen
  · exact hd0 hn hhead

theorem takeWhile_all_append (p : Char → Bool) (l l2 : List Char)
    (h : ∀ c ∈ l, p c = true) (h2 : ∀ c cs, l2 = c :: cs → p c = false) :
    (l ++ l2).takeWhile p = l ∧ (l ++ l2).dropWhile p = l2 := by
  induction l with
  | nil =>
    simp only [List.nil_append]
    cases l2 with
    | nil => exact ⟨rfl, rfl⟩
    | cons c cs =>
      have hc := h2 c cs rfl
      simp [List.takeWhile_cons, List.dropWhile_cons, hc]
  | cons a as ih =>
    have ha := h a (by simp)
    have ihx := ih (fun c hc => h c (by simp [hc]))
    simp [List.takeWhile_cons, List.dropWhile_cons, ha, ihx.1, ihx.2]

theorem numBoundary_cons {c : Char} {cs : List Char} (h : numBoundary (c :: cs) = true) :
    isDigitChar c = false ∧ c ≠ '.' ∧ c ≠ 'e' ∧ c ≠ 'E' := by
  simp only [numBoundary, Bool.not_eq_true', Bool.or_eq_false_iff] at h
  obtain ⟨⟨⟨hd, h1⟩, h2⟩, h3⟩ := h
  exact ⟨hd, by simpa using h1, by simpa using h2, by simpa using h3⟩

theorem parsePosNumber_natDigits (n : Nat) (rest : List Char) (h : numBoundary rest = true) :
    parsePosNumber (natDigits n ++ rest) = some (n, rest) := by
  obtain ⟨hall, hval, d, ds, heq, hd0, hsmall⟩ := natDigits_spec n
  have hbd : ∀ c cs, rest = c :: cs → isDigitChar c = false := by
    intro c cs hr; subst hr
    exact (numBoundary_cons h).1
  have htk := takeWhile_all_append isDigitChar (natDigits n) rest hall hbd
  rw [parsePosNumber]
  simp only [htk.1, htk.2]
  rw [if_neg (by rw [heq]; simp)]
  rw [if_neg (natDigits_no_leading_zero n)]
  cases rest with
  | nil =>
    show some (digitsVal (natDigits n), ([] : List Char)) = some (n, [])
    rw [hval]
  | cons c cs =>
    have hb := numBoundary_cons h
    show (if c = '.' ∨ c = 'e' ∨ c = 'E' then none
      else some (digitsVal (natDigits n), c :: cs)) = some (n, c :: cs)
    rw [if_neg (by push_neg; exact ⟨hb.2.1, hb.2.2.1, hb.2.2.2⟩)]
    rw [hval]

theorem parseNumber_cons_not_dash {c : Char} {cs : List Char} (h : c ≠ '-') :
    parseNumber (c :: cs) =
      match parsePosNumber (c :: cs) with
      | some (n, r) => some (Json.num (n : Int), r)
      | none => none := by
  rw [parseNumber]
  intro cs1 hcc
  injection hcc with h1 _
  exact absurd h1 h

theorem parseNumber_intChars (n : Int) (rest : List Char) (h : numBoundary rest = true) :
    parseNumber (intChars n ++ rest) = some (Json.num n, rest) := by
  rcases n with m | m
  · have hi : intChars (Int.ofNat m) = natDigits m := by
      rw [intChars, if_neg (by simp [Int.ofNat_eq_natCast])]
      rfl
    rw [hi]
    obtain ⟨hall, _, d, ds, heq, _, _⟩ := natDigits_spec m
    have hd : isDigitChar d = true := hall d (by rw [heq]; simp)
    have hdm := isDigitChar_not_special hd
    rw [heq, List.cons_append, parseNumber_cons_not_dash hdm.2.2.2.2.2.2.2.1,
      ← List.cons_append, ← heq, parsePosNumber_natDigits m rest h]
    rfl
  · have hi : intChars (Int.negSucc m) = '-' :: natDigits (m + 1) := by
      rw [intChars, if_pos (Int.negSucc_lt_zero m), Int.natAbs_negSucc]
    rw [hi, List.cons_append, parseNumber]
    show (match parsePosNumber (natDigits (m + 1) ++ rest) with
      | some (k, r) => some (Json.num (-(k : Int)), r)
      | none => none) = some (Json.num (Int.negSucc m), rest)
    rw [parsePosNumber_natDigits (m + 1) rest h]
    norm_num [Int.negSucc_eq]



theorem psb_nil : parseStringBody [] = none := rfl

theorem psb_quote (L : List Char) : parseStringBody ('\x22' :: L) = some ([], L) := by
  rw [parseStringBody.eq_def]; simp

theorem psb_esc_quote (L : List Char) :
    parseStringBody ('\\' :: '\x22' :: L) = mapConsStr '\x22' (parseStringBody L) := by
  rw [parseStringBody.eq_def]; simp

theorem psb_esc_backslash (L : List Char) :
    parseStringBody ('\\' :: '\\' :: L) = mapConsStr '\\' (parseStringBody L) := by
  rw [parseStringBody.eq_def]; simp

theorem psb_esc_b (L : List Char) :
    parseStringBody ('\\' :: 'b' :: L) = mapConsStr '\x08' (parseStringBody L) := by
  rw [parseStringBody.eq_def]; simp

theorem psb_esc_f (L : List Char) :
    parseStringBody ('\\' :: 'f' :: L) = mapConsStr '\x0c' (parseStringBody L) := by
  rw [parseStringBody.eq_def]; simp

theorem psb_esc_n (L : List Char) :
    parseStringBody ('\\' :: 'n' :: L) = mapConsStr '\n' (parseStringBody L) := by
  rw [parseStringBody.eq_def]; simp

theorem psb_esc_r (L : List Char) :
    parseStringBody ('\\' :: 'r' :: L) = mapConsStr '\r' (parseStringBody L) := by
  rw [parseStringBody.eq_def]; simp

theorem psb_esc_t (L : List Char) :
    parseStringBody ('\\' :: 't' :: L) = mapConsStr '\t' (parseStringBody L) := by
  rw [parseStringBody.eq_def]; simp

theorem psb_esc_u (h1 h2 h3 h4 : Char) (cs3 : List Char) (a b c2 d : Nat)
    (ha : hexVal h1 = some a) (hb : hexVal h2 = some b) (hc : hexVal h3 = some c2)
    (hd : hexVal h4 = some d) :
    parseStringBody ('\\' :: 'u' :: h1 :: h2 :: h3 :: h4 :: cs3) =
      mapConsStr (Char.ofNat (4096 * a + 256 * b + 16 * c2 + d)) (parseStringBody cs3) := by
  rw [parseStringBody.eq_def]; simp [ha, hb, hc, hd]

theorem psb_raw (c : Char) (L : List Char) (h1 : ¬c = '\x22') (h2 : ¬c = '\\')
    (h8 : ¬c.toNat < 32) : parseStringBody (c :: L) = mapConsStr c (parseStringBody L) := by
  rw [parseStringBody.eq_def]
  simp only []
  rw [if_neg h1, if_neg h2, if_neg h8]


theorem parseStringBody_escList (cs rest : List Char) :
    parseStringBody (escList cs ++ '\x22' :: rest) = some (cs, rest) := by
  induction cs with
  | nil =>
    rw [show escList [] = [] from rfl, List.nil_append, psb_quote]
  | cons c cs ih =>
    rw [escList, List.append_assoc]
    by_cases h1 : c = '\x22'
    · subst h1
      rw [show escapeChar '\x22' = ['\\', '\x22'] from by decide]
      simp only [List.cons_append, List.nil_append]
      rw [psb_esc_quote, ih]; rfl
    · by_cases h2 : c = '\\'
      · subst h2
        rw [show escapeChar '\\' = ['\\', '\\'] from by decide]
        simp only [List.cons_append, List.nil_append]
        rw [psb_esc_backslash, ih]; rfl
      · by_cases h3 : c = '\x08'
        · subst h3
          rw [show escapeChar '\x08' = ['\\', 'b'] from by decide]
          simp only [List.cons_append, List.nil_append]
          rw [psb_esc_b, ih]; rfl
        · by_cases h4 : c = '\x0c'
          · subst h4
            rw [show escapeChar '\x0c' = ['\\', 'f'] from by decide]
            simp only [List.cons_append, List.nil_append]
            rw [psb_esc_f, ih]; rfl
          · by_cases h5 : c = '\n'
            · subst h5
              rw [show escapeChar '\n' = ['\\', 'n'] from by decide]
              simp only [List.cons_append, List.nil_append]
              rw [psb_esc_n, ih]; rfl
            · by_cases h6 : c = '\r'
              · subst h6
                rw [show escapeChar '\r' = ['\\', 'r'] from by decide]
                simp only [List.cons_append, List.nil_append]
                rw [psb_esc_r, ih]; rfl
              · by_cases h7 : c = '\t'
                · subst h7
                  rw [show escapeChar '\t' = ['\\', 't'] from by decide]
                  simp only [List.cons_append, List.nil_append]
                  rw [psb_esc_t, ih]; rfl
                · by_cases h8 : c.toNat < 32
                  · have hesc : escapeChar c = ['\\', 'u', '0', '0',
                        digitChar (c.toNat / 16), digitChar (c.toNat % 16)] := by
                      rw [escapeChar, if_neg h1, if_neg h2, if_neg h3, if_neg h4, if_neg h5,
                        if_neg h6, if_neg h7, if_pos h8]
                    rw [hesc]
                    simp only [List.cons_append, List.nil_append]
                    rw [psb_esc_u '0' '0' (digitChar (c.toNat / 16)) (digitChar (c.toNat % 16))
                      _ 0 0 (c.toNat / 16) (c.toNat % 16) (by decide) (by decide)
                      (hexVal_digitChar (by omega)) (hexVal_digitChar (by omega))]
                    rw [show 4096 * 0 + 256 * 0 + 16 * (c.toNat / 16) + c.toNat % 16 = c.toNat
                      from by omega]
                    rw [Char.ofNat_toNat, ih]; rfl
                  · have hesc : escapeChar c = [c] := by
                      rw [escapeChar, if_neg h1, if_neg h2, if_neg h3, if_neg h4, if_neg h5,
                        if_neg h6, if_neg h7, if_neg h8]
                    rw [hesc, List.singleton_append, psb_raw c _ h1 h2 h8, ih]
                    rfl

theorem isDigitChar_not_trimWs {c : Char} (h : isDigitChar c = true) :
    isTrimWsChar c = false := by
  rcases hw : isTrimWsChar c
  · rfl
  · exfalso
    rw [isDigitChar_iff] at h
    simp [isTrimWsChar] at hw
    omega

theorem strV_cons (ind : Nat) (v : Json) :
    ∃ c t, strV ind v = c :: t ∧ isWsChar c = false ∧ c ≠ ']' ∧ c ≠ '\x7d' ∧
      isTrimWsChar c = false := by
  cases v with
  | null => exact ⟨'n', _, rfl, by decide, by decide, by decide, by decide⟩
  | bool b =>
    cases b
    · exact ⟨'f', _, rfl, by decide, by decide, by decide, by decide⟩
    · exact ⟨'t', _, rfl, by decide, by decide, by decide, by decide⟩
  | num n =>
    rcases n with m | m
    · obtain ⟨hall, _, d, ds, heq, _, _⟩ := natDigits_spec m
      have hd := isDigitChar_not_special (hall d (by rw [heq]; simp))
      refine ⟨d, ds, ?_, hd.1, hd.2.2.2.2.2.2.2.2.1, hd.2.2.2.2.2.2.2.2.2.1,
        isDigitChar_not_trimWs (hall d (by rw [heq]; simp))⟩
      show intChars (Int.ofNat m) = d :: ds
      rw [intChars, if_neg (by simp [Int.ofNat_eq_natCast])]
      exact heq
    · refine ⟨'-', natDigits (m + 1), ?_, by decide, by decide, by decide, by decide⟩
      show intChars (Int.negSucc m) = '-' :: natDigits (m + 1)
      rw [intChars, if_pos (Int.negSucc_lt_zero m), Int.natAbs_negSucc]
  | str s => exact ⟨'\x22', _, rfl, by decide, by decide, by decide, by decide⟩
  | arr l =>
    cases l with
    | nil => exact ⟨'[', _, rfl, by decide, by decide, by decide, by decide⟩
    | cons x xs => exact ⟨'[', _, rfl, by decide, by decide, by decide, by decide⟩
  | obj l =>
    cases l with
    | nil => exact ⟨'\x7b', _, rfl, by decide, by decide, by decide, by decide⟩
    | cons kv ms =>
      obtain ⟨k, v⟩ := kv
      exact ⟨'\x7b', _, rfl, by decide, by decide, by decide, by decide⟩

theorem costV_pos (v : Json) : 1 ≤ costV v := by
  rcases v with _ | b | n | s | (_ | ⟨x, xs⟩) | (_ | ⟨⟨k, vv⟩, ms⟩) <;> simp [costV] <;> omega

theorem costT_pos (xs : List Json) : 1 ≤ costT xs := by
  rcases xs with _ | ⟨x, xs⟩ <;> simp [costT] <;> omega

theorem costM_pos (ms : List (String × Json)) : 1 ≤ costM ms := by
  rcases ms with _ | ⟨⟨k, v⟩, ms⟩ <;> simp [costM] <;> omega

theorem isWsChar_not_num_start {c : Char} (h : isWsChar c = true) :
    isDigitChar c = false ∧ c ≠ '.' ∧ c ≠ 'e' ∧ c ≠ 'E' := by
  simp [isWsChar] at h
  rcases h with ((h | h) | h) | h <;> subst h <;>
    exact ⟨by decide, by decide, by decide, by decide⟩

theorem numBoundary_ws_append (ws l : List Char) (hws : ∀ c ∈ ws, isWsChar c = true)
    (hl : numBoundary l = true) : numBoundary (ws ++ l) = true := by
  cases ws with
  | nil => simpa using hl
  | cons w ws2 =>
    have hw := isWsChar_not_num_start (hws w (by simp))
    show numBoundary (w :: (ws2 ++ l)) = true
    simp [numBoundary, hw.1, hw.2.1, hw.2.2.1, hw.2.2.2]

theorem numBoundary_elemsTail (ind : Nat) (xs : List Json) (ws rest : List Char)
    (hws : ∀ c ∈ ws, isWsChar c = true) :
    numBoundary (strElemsTail ind xs ++ (ws ++ ']' :: rest)) = true := by
  cases xs with
  | nil =>
    rw [show strElemsTail ind [] = [] from rfl, List.nil_append]
    exact numBoundary_ws_append ws _ hws rfl
  | cons x xs => rfl

theorem numBoundary_membersTail (ind : Nat) (ms : List (String × Json)) (ws rest : List Char)
    (hws : ∀ c ∈ ws, isWsChar c = true) :
    numBoundary (strMembersTail ind ms ++ (ws ++ '\x7d' :: rest)) = true := by
  cases ms with
  | nil =>
    rw [show strMembersTail ind [] = [] from rfl, List.nil_append]
    exact numBoundary_ws_append ws _ hws rfl
  | cons kv ms =>
    obtain ⟨k, v⟩ := kv
    rfl



theorem pv_null (f : Nat) (cs rest : List Char)
    (h : skipWs cs = 'n' :: 'u' :: 'l' :: 'l' :: rest) :
    parseVal (f + 1) cs = some (.null, rest) := by
  rw [parseVal.eq_def]; simp only []; rw [h]; simp

theorem pv_true (f : Nat) (cs rest : List Char)
    (h : skipWs cs = 't' :: 'r' :: 'u' :: 'e' :: rest) :
    parseVal (f + 1) cs = some (.bool true, rest) := by
  rw [parseVal.eq_def]; simp only []; rw [h]; simp

theorem pv_false (f : Nat) (cs rest : List Char)
    (h : skipWs cs = 'f' :: 'a' :: 'l' :: 's' :: 'e' :: rest) :
    parseVal (f + 1) cs = some (.bool false, rest) := by
  rw [parseVal.eq_def]; simp only []; rw [h]; simp

theorem pv_str (f : Nat) (cs cs1 : List Char) (h : skipWs cs = '\x22' :: cs1) :
    parseVal (f + 1) cs =
      (match parseStringBody cs1 with
       | some (sc, r) => some (.str (String.mk sc), r)
       | none => none) := by
  rw [parseVal.eq_def]; simp only []; rw [h]; simp only []
  rw [if_neg (by decide), if_neg (by decide), if_neg (by decide), if_pos (by decide)]

theorem pv_arr (f : Nat) (cs cs1 : List Char) (h : skipWs cs = '[' :: cs1) :
    parseVal (f + 1) cs =
      (match skipWs cs1 with
       | [] => none
       | d :: ds =>
         if d = ']' then some (.arr [], ds)
         else
           match parseVal f (d :: ds) with
           | some (v, r1) =>
             (match parseElemsTail f r1 with
              | some (vs, r2) => some (.arr (v :: vs), r2)
              | none => none)
           | none => none) := by
  rw [parseVal.eq_def]; simp only []; rw [h]; simp only []
  rw [if_neg (by decide), if_neg (by decide), if_neg (by decide), if_neg (by decide),
    if_pos (by decide)]

theorem pv_obj (f : Nat) (cs cs1 : List Char) (h : skipWs cs = '\x7b' :: cs1) :
    parseVal (f + 1) cs =
      (match skipWs cs1 with
       | [] => none
       | d :: ds =>
         if d = '\x7d' then some (.obj [], ds)
         else if d = '\x22' then
           match parseStringBody ds with
           | some (k, r1) =>
             (match skipWs r1 with
              | [] => none
              | g :: gs =>
                if g = ':' then
                  match parseVal f gs with
                  | some (v, r3) =>
                    (match parseMembersTail f r3 with
                     | some (ms, r4) => some (.obj ((String.mk k, v) :: ms), r4)
                     | none => none)
                  | none => none
                else none)
           | none => none
         else none) := by
  rw [parseVal.eq_def]; simp only []; rw [h]; simp only []
  rw [if_neg (by decide), if_neg (by decide), if_neg (by decide), if_neg (by decide),
    if_neg (by decide), if_pos (by decide)]

theorem pv_num (f : Nat) (cs : List Char) (d : Char) (cs1 : List Char)
    (h : skipWs cs = d :: cs1)
    (k1 : d ≠ 'n') (k2 : d ≠ 't') (k3 : d ≠ 'f') (k4 : d ≠ '\x22') (k5 : d ≠ '[')
    (k6 : d ≠ '\x7b') (k7 : d = '-' ∨ isDigitChar d = true) :
    parseVal (f + 1) cs = parseNumber (d :: cs1) := by
  rw [parseVal.eq_def]; simp only []; rw [h]; simp only []
  rw [if_neg k1, if_neg k2, if_neg k3, if_neg k4, if_neg k5, if_neg k6,
    if_pos (by rcases k7 with h7 | h7; exact Or.inl h7; exact Or.inr h7)]

theorem pet_close (f : Nat) (cs ds : List Char) (h : skipWs cs = ']' :: ds) :
    parseElemsTail (f + 1) cs = some ([], ds) := by
  rw [parseElemsTail.eq_def]; simp only []; rw [h]; simp

theorem pet_comma (f : Nat) (cs ds : List Char) (h : skipWs cs = ',' :: ds) :
    parseElemsTail (f + 1) cs =
      (match parseVal f ds with
       | some (v, r1) =>
         (match parseElemsTail f r1 with
          | some (vs, r2) => some (v :: vs, r2)
          | none => none)
       | none => none) := by
  rw [parseElemsTail.eq_def]; simp only []; rw [h]; simp only []
  rw [if_neg (by decide), if_pos (by decide)]

theorem pmt_close (f : Nat) (cs ds : List Char) (h : skipWs cs = '\x7d' :: ds) :
    parseMembersTail (f + 1) cs = some ([], ds) := by
  rw [parseMembersTail.eq_def]; simp only []; rw [h]; simp

theorem pmt_comma (f : Nat) (cs ds : List Char) (h : skipWs cs = ',' :: ds) :
    parseMembersTail (f + 1) cs =
      (match skipWs ds with
       | [] => none
       | e :: es =>
         if e = '\x22' then
           match parseStringBody es with
           | some (k, r1) =>
             (match skipWs r1 with
              | [] => none
              | g :: gs =>
                if g = ':' then
                  match parseVal f gs with
                  | some (v, r3) =>
                    (match parseMembersTail f r3 with
                     | some (ms, r4) => some ((String.mk k, v) :: ms, r4)
                     | none => none)
                  | none => none
                else none)
           | none => none
         else none) := by
  rw [parseMembersTail.eq_def]; simp only []; rw [h]; simp only []
  rw [if_neg (by decide), if_pos (by decide)]




theorem intChars_head (n : Int) :
    ∃ d t, intChars n = d :: t ∧ isWsChar d = false ∧ d ≠ 'n' ∧ d ≠ 't' ∧ d ≠ 'f' ∧
      d ≠ '\x22' ∧ d ≠ '[' ∧ d ≠ '\x7b' ∧ (d = '-' ∨ isDigitChar d = true) := by
  rcases n with m | m
  · obtain ⟨hall, _, d, ds, heq, _, _⟩ := natDigits_spec m
    have hd : isDigitChar d = true := hall d (by rw [heq]; simp)
    have hf := isDigitChar_not_special hd
    refine ⟨d, ds, ?_, hf.1, hf.2.1, hf.2.2.1, hf.2.2.2.1, hf.2.2.2.2.1, hf.2.2.2.2.2.1,
      hf.2.2.2.2.2.2.1, Or.inr hd⟩
    rw [intChars, if_neg (by simp [Int.ofNat_eq_natCast])]
    exact heq
  · refine ⟨'-', natDigits (m + 1), ?_, by decide, by decide, by decide, by decide, by decide,
      by decide, by decide, Or.inl rfl⟩
    rw [intChars, if_pos (Int.negSucc_lt_zero m), Int.natAbs_negSucc]

theorem parse_stringify_rt (f : Nat) :
    (∀ v ind ws rest, costV v ≤ f → (∀ c ∈ ws, isWsChar c = true) → numBoundary rest = true →
      parseVal f (ws ++ (strV ind v ++ rest)) = some (v, rest)) ∧
    (∀ xs ind ws rest, costT xs ≤ f → (∀ c ∈ ws, isWsChar c = true) →
      parseElemsTail f (strElemsTail ind xs ++ (ws ++ ']' :: rest)) = some (xs, rest)) ∧
    (∀ ms ind ws rest, costM ms ≤ f → (∀ c ∈ ws, isWsChar c = true) →
      parseMembersTail f (strMembersTail ind ms ++ (ws ++ '\x7d' :: rest)) = some (ms, rest)) := by
  induction f with
  | zero =>
    refine ⟨fun v ind ws rest hc _ _ => absurd hc (by have := costV_pos v; omega),
      fun xs ind ws rest hc _ => absurd hc (by have := costT_pos xs; omega),
      fun ms ind ws rest hc _ => absurd hc (by have := costM_pos ms; omega)⟩
  | succ f ih =>
    obtain ⟨ihA, ihB, ihC⟩ := ih
    refine ⟨?_, ?_, ?_⟩
    · intro v ind ws rest hc hws hrest
      rcases v with _ | b | n | s | (_ | ⟨x, xs⟩) | (_ | ⟨⟨k, v⟩, ms⟩)
      · exact pv_null f _ rest (by
          simp only [strV, List.cons_append, List.nil_append, List.append_assoc]
          rw [skipWs_ws_append _ _ hws]
          exact skipWs_cons_not_ws _ (by decide))
      · rcases b with _ | _
        · exact pv_false f _ rest (by
            simp only [strV, List.cons_append, List.nil_append, List.append_assoc]
            rw [skipWs_ws_append _ _ hws]
            exact skipWs_cons_not_ws _ (by decide))
        · exact pv_true f _ rest (by
            simp only [strV, List.cons_append, List.nil_append, List.append_assoc]
            rw [skipWs_ws_append _ _ hws]
            exact skipWs_cons_not_ws _ (by decide))
      · obtain ⟨d, t0, heq, hw0, k1, k2, k3, k4, k5, k6, k7⟩ := intChars_head n
        rw [pv_num f _ d (t0 ++ rest) (by
            simp only [strV]
            rw [heq, List.cons_append, skipWs_ws_append _ _ hws]
            exact skipWs_cons_not_ws _ hw0) k1 k2 k3 k4 k5 k6 k7]
        rw [← List.cons_append, ← heq]
        exact parseNumber_intChars n rest hrest
      · have hsk : skipWs (ws ++ (strV ind (.str s) ++ rest)) =
            '\x22' :: (escList s.data ++ '\x22' :: rest) := by
          simp only [strV, escString, List.cons_append, List.nil_append, List.append_assoc]
          rw [skipWs_ws_append _ _ hws]
          exact skipWs_cons_not_ws _ (by decide)
        rw [pv_str f _ _ hsk, parseStringBody_escList]
      · have hsk : skipWs (ws ++ (strV ind (.arr []) ++ rest)) = '[' :: (']' :: rest) := by
          simp only [strV, List.cons_append, List.nil_append, List.append_assoc]
          rw [skipWs_ws_append _ _ hws]
          exact skipWs_cons_not_ws _ (by decide)
        rw [pv_arr f _ _ hsk, skipWs_cons_not_ws _ (by decide)]
        simp
      · have hcx : costV x ≤ f ∧ costT xs ≤ f := by
          rw [costV] at hc
          omega
        obtain ⟨c0, t0, hx, hxw, hxne, _, _⟩ := strV_cons (ind + 4) x
        have hsk : skipWs (ws ++ (strV ind (.arr (x :: xs)) ++ rest)) =
            '[' :: ('\n' :: (pad (ind + 4) ++ (strV (ind + 4) x ++ (strElemsTail (ind + 4) xs ++
              ('\n' :: (pad ind ++ (']' :: rest))))))) := by
          simp only [strV, List.cons_append, List.nil_append, List.append_assoc]
          rw [skipWs_ws_append _ _ hws]
          exact skipWs_cons_not_ws _ (by decide)
        rw [pv_arr f _ _ hsk]
        have hshape : ('\n' :: (pad (ind + 4) ++ (strV (ind + 4) x ++ (strElemsTail (ind + 4) xs ++
            ('\n' :: (pad ind ++ (']' :: rest)))))) : List Char) =
            ('\n' :: pad (ind + 4)) ++ (strV (ind + 4) x ++ (strElemsTail (ind + 4) xs ++
              ('\n' :: (pad ind ++ (']' :: rest))))) := by
          simp
        have hsk2 : skipWs ('\n' :: (pad (ind + 4) ++ (strV (ind + 4) x ++
            (strElemsTail (ind + 4) xs ++ ('\n' :: (pad ind ++ (']' :: rest))))))) =
            c0 :: (t0 ++ (strElemsTail (ind + 4) xs ++ ('\n' :: (pad ind ++ (']' :: rest))))) := by
          rw [hshape, skipWs_ws_append _ _ (nl_pad_ws _), hx, List.cons_append]
          exact skipWs_cons_not_ws _ hxw
        rw [hsk2]
        simp only []
        rw [if_neg hxne]
        have hnb : numBoundary (strElemsTail (ind + 4) xs ++
            ('\n' :: (pad ind ++ (']' :: rest)))) = true := by
          have := numBoundary_elemsTail (ind + 4) xs ('\n' :: pad ind) rest (nl_pad_ws ind)
          simpa using this
        have hx2 : parseVal f (c0 :: (t0 ++ (strElemsTail (ind + 4) xs ++
            ('\n' :: (pad ind ++ (']' :: rest)))))) =
            some (x, strElemsTail (ind + 4) xs ++ ('\n' :: (pad ind ++ (']' :: rest)))) := by
          rw [← List.cons_append, ← hx]
          have := ihA x (ind + 4) [] _ hcx.1 (by simp) hnb
          simpa using this
        rw [hx2]
        simp only []
        have hx3 : parseElemsTail f (strElemsTail (ind + 4) xs ++
            ('\n' :: (pad ind ++ (']' :: rest)))) = some (xs, rest) := by
          have := ihB xs (ind + 4) ('\n' :: pad ind) rest hcx.2 (nl_pad_ws ind)
          simpa using this
        rw [hx3]
      · have hsk : skipWs (ws ++ (strV ind (.obj []) ++ rest)) = '\x7b' :: ('\x7d' :: rest) := by
          simp only [strV, List.cons_append, List.nil_append, List.append_assoc]
          rw [skipWs_ws_append _ _ hws]
          exact skipWs_cons_not_ws _ (by decide)
        rw [pv_obj f _ _ hsk, skipWs_cons_not_ws _ (by decide)]
        simp
      · have hcv : costV v ≤ f ∧ costM ms ≤ f := by
          rw [costV] at hc
          omega
        have hsk : skipWs (ws ++ (strV ind (.obj ((k, v) :: ms)) ++ rest)) =
            '\x7b' :: ('\n' :: (pad (ind + 4) ++ ('\x22' :: (escList k.data ++
              ('\x22' :: (':' :: (' ' :: (strV (ind + 4) v ++ (strMembersTail (ind + 4) ms ++
                ('\n' :: (pad ind ++ ('\x7d' :: rest)))))))))))) := by
          simp only [strV, escString, List.cons_append, List.nil_append, List.append_assoc]
          rw [skipWs_ws_append _ _ hws]
          exact skipWs_cons_not_ws _ (by decide)
        rw [pv_obj f _ _ hsk]
        have hshape : ('\n' :: (pad (ind + 4) ++ ('\x22' :: (escList k.data ++
            ('\x22' :: (':' :: (' ' :: (strV (ind + 4) v ++ (strMembersTail (ind + 4) ms ++
              ('\n' :: (pad ind ++ ('\x7d' :: rest))))))))))) : List Char) =
            ('\n' :: pad (ind + 4)) ++ ('\x22' :: (escList k.data ++
              ('\x22' :: (':' :: (' ' :: (strV (ind + 4) v ++ (strMembersTail (ind + 4) ms ++
                ('\n' :: (pad ind ++ ('\x7d' :: rest)))))))))) := by
          simp
        have hsk2 : skipWs ('\n' :: (pad (ind + 4) ++ ('\x22' :: (escList k.data ++
            ('\x22' :: (':' :: (' ' :: (strV (ind + 4) v ++ (strMembersTail (ind + 4) ms ++
              ('\n' :: (pad ind ++ ('\x7d' :: rest)))))))))))) =
            '\x22' :: (escList k.data ++ ('\x22' :: (':' :: (' ' :: (strV (ind + 4) v ++
              (strMembersTail (ind + 4) ms ++ ('\n' :: (pad ind ++ ('\x7d' :: rest))))))))) := by
          rw [hshape, skipWs_ws_append _ _ (nl_pad_ws _)]
          exact skipWs_cons_not_ws _ (by decide)
        rw [hsk2]
        simp only []
        rw [if_neg (by decide), if_pos (by decide)]
        rw [show (escList k.data ++ ('\x22' :: (':' :: (' ' :: (strV (ind + 4) v ++
            (strMembersTail (ind + 4) ms ++ ('\n' :: (pad ind ++ ('\x7d' :: rest))))))))) =
          (escList k.data ++ '\x22' :: (':' :: (' ' :: (strV (ind + 4) v ++
            (strMembersTail (ind + 4) ms ++ ('\n' :: (pad ind ++ ('\x7d' :: rest)))))))) from rfl]
        rw [parseStringBody_escList]
        simp only []
        rw [skipWs_cons_not_ws _ (by decide)]
        simp only []
        rw [if_pos (by decide)]
        have hnb : numBoundary (strMembersTail (ind + 4) ms ++
            ('\n' :: (pad ind ++ ('\x7d' :: rest)))) = true := by
          have := numBoundary_membersTail (ind + 4) ms ('\n' :: pad ind) rest (nl_pad_ws ind)
          simpa using this
        have hv2 : parseVal f (' ' :: (strV (ind + 4) v ++ (strMembersTail (ind + 4) ms ++
            ('\n' :: (pad ind ++ ('\x7d' :: rest)))))) =
            some (v, strMembersTail (ind + 4) ms ++ ('\n' :: (pad ind ++ ('\x7d' :: rest)))) := by
          have := ihA v (ind + 4) [' '] _ hcv.1 (by
            intro c hc2
            simp at hc2
            rw [hc2]
            rfl) hnb
          simpa using this
        rw [hv2]
        simp only []
        have hm3 : parseMembersTail f (strMembersTail (ind + 4) ms ++
            ('\n' :: (pad ind ++ ('\x7d' :: rest)))) = some (ms, rest) := by
          have := ihC ms (ind + 4) ('\n' :: pad ind) rest hcv.2 (nl_pad_ws ind)
          simpa using this
        rw [hm3]
    · intro xs ind ws rest hc hws2
      rcases xs with _ | ⟨x, xs⟩
      · exact pet_close f _ rest (by
          simp only [strElemsTail, List.nil_append]
          rw [skipWs_ws_append _ _ hws2]
          exact skipWs_cons_not_ws _ (by decide))
      · have hcx : costV x ≤ f ∧ costT xs ≤ f := by
          rw [costT] at hc
          omega
        have hsk : skipWs (strElemsTail ind (x :: xs) ++ (ws ++ ']' :: rest)) =
            ',' :: ('\n' :: (pad ind ++ (strV ind x ++ (strElemsTail ind xs ++
              (ws ++ ']' :: rest))))) := by
          simp only [strElemsTail, List.cons_append, List.nil_append, List.append_assoc]
          exact skipWs_cons_not_ws _ (by decide)
        rw [pet_comma f _ _ hsk]
        have hnb : numBoundary (strElemsTail ind xs ++ (ws ++ ']' :: rest)) = true :=
          numBoundary_elemsTail ind xs ws rest hws2
        have hx2 : parseVal f ('\n' :: (pad ind ++ (strV ind x ++ (strElemsTail ind xs ++
            (ws ++ ']' :: rest))))) = some (x, strElemsTail ind xs ++ (ws ++ ']' :: rest)) := by
          have := ihA x ind ('\n' :: pad ind) _ hcx.1 (nl_pad_ws ind) hnb
          simpa using this
        rw [hx2]
        simp only []
        rw [ihB xs ind ws rest hcx.2 hws2]
    · intro ms ind ws rest hc hws2
      rcases ms with _ | ⟨⟨k, v⟩, ms⟩
      · exact pmt_close f _ rest (by
          simp only [strMembersTail, List.nil_append]
          rw [skipWs_ws_append _ _ hws2]
          exact skipWs_cons_not_ws _ (by decide))
      · have hcv : costV v ≤ f ∧ costM ms ≤ f := by
          rw [costM] at hc
          omega
        have hsk : skipWs (strMembersTail ind ((k, v) :: ms) ++ (ws ++ '\x7d' :: rest)) =
            ',' :: ('\n' :: (pad ind ++ ('\x22' :: (escList k.data ++ ('\x22' :: (':' ::
              (' ' :: (strV ind v ++ (strMembersTail ind ms ++ (ws ++ '\x7d' :: rest)))))))))) := by
          simp only [strMembersTail, escString, List.cons_append, List.nil_append,
            List.append_assoc]
          exact skipWs_cons_not_ws _ (by decide)
        rw [pmt_comma f _ _ hsk]
        have hshape : ('\n' :: (pad ind ++ ('\x22' :: (escList k.data ++ ('\x22' :: (':' ::
            (' ' :: (strV ind v ++ (strMembersTail ind ms ++ (ws ++ '\x7d' :: rest))))))))) :
            List Char) =
            ('\n' :: pad ind) ++ ('\x22' :: (escList k.data ++ ('\x22' :: (':' ::
              (' ' :: (strV ind v ++ (strMembersTail ind ms ++ (ws ++ '\x7d' :: rest)))))))) := by
          simp
        have hsk2 : skipWs ('\n' :: (pad ind ++ ('\x22' :: (escList k.data ++ ('\x22' :: (':' ::
            (' ' :: (strV ind v ++ (strMembersTail ind ms ++ (ws ++ '\x7d' :: rest)))))))))) =
            '\x22' :: (escList k.data ++ ('\x22' :: (':' :: (' ' :: (strV ind v ++
              (strMembersTail ind ms ++ (ws ++ '\x7d' :: rest))))))) := by
          rw [hshape, skipWs_ws_append _ _ (nl_pad_ws _)]
          exact skipWs_cons_not_ws _ (by decide)
        rw [hsk2]
        simp only []
        rw [if_pos (by decide)]
        rw [show (escList k.data ++ ('\x22' :: (':' :: (' ' :: (strV ind v ++
            (strMembersTail ind ms ++ (ws ++ '\x7d' :: rest))))))) =
          (escList k.data ++ '\x22' :: (':' :: (' ' :: (strV ind v ++
            (strMembersTail ind ms ++ (ws ++ '\x7d' :: rest)))))) from rfl]
        rw [parseStringBody_escList]
        simp only []
        rw [skipWs_cons_not_ws _ (by decide)]
        simp only []
        rw [if_pos (by decide)]
        have hnb : numBoundary (strMembersTail ind ms ++ (ws ++ '\x7d' :: rest)) = true :=
          numBoundary_membersTail ind ms ws rest hws2
        have hv2 : parseVal f (' ' :: (strV ind v ++ (strMembersTail ind ms ++
            (ws ++ '\x7d' :: rest)))) =
            some (v, strMembersTail ind ms ++ (ws ++ '\x7d' :: rest)) := by
          have := ihA v ind [' '] _ hcv.1 (by
            intro c hc2
            simp at hc2
            rw [hc2]
            rfl) hnb
          simpa using this
        rw [hv2]
        simp only []
        rw [ihC ms ind ws rest hcv.2 hws2]



theorem str_len_ge (N : Nat) :
    (∀ v ind, sizeOf v < N → costV v ≤ (strV ind v).length) ∧
    (∀ xs ind, sizeOf xs < N → costT xs ≤ (strElemsTail ind xs).length + 1) ∧
    (∀ ms ind, sizeOf ms < N → costM ms ≤ (strMembersTail ind ms).length + 1) := by
  induction N with
  | zero =>
    exact ⟨fun v ind h => absurd h (by omega), fun xs ind h => absurd h (by omega),
      fun ms ind h => absurd h (by omega)⟩
  | succ N ih =>
    obtain ⟨ihA, ihB, ihC⟩ := ih
    refine ⟨?_, ?_, ?_⟩
    · intro v ind hN
      rcases v with _ | b | n | s | (_ | ⟨x, xs⟩) | (_ | ⟨⟨k, v⟩, ms⟩)
      · simp [costV, strV]
      · rcases b with _ | _ <;> simp [costV, strV]
      · obtain ⟨d, t, heq, _⟩ := intChars_head n
        simp only [costV, strV, heq, List.length_cons]
        omega
      · simp only [costV, strV, escString, List.length_append, List.length_cons]
        omega
      · simp [costV, strV]
      · have hx : sizeOf x < N := by
          simp only [Json.arr.sizeOf_spec, List.cons.sizeOf_spec] at hN
          omega
        have hxs : sizeOf xs < N := by
          simp only [Json.arr.sizeOf_spec, List.cons.sizeOf_spec] at hN
          omega
        have h1 := ihA x (ind + 4) hx
        have h2 := ihB xs (ind + 4) hxs
        simp only [costV, strV, List.length_append, List.length_cons]
        omega
      · simp [costV, strV]
      · have hv : sizeOf v < N := by
          simp only [Json.obj.sizeOf_spec, List.cons.sizeOf_spec, Prod.mk.sizeOf_spec] at hN
          omega
        have hms : sizeOf ms < N := by
          simp only [Json.obj.sizeOf_spec, List.cons.sizeOf_spec, Prod.mk.sizeOf_spec] at hN
          omega
        have h1 := ihA v (ind + 4) hv
        have h2 := ihC ms (ind + 4) hms
        simp only [costV, strV, escString, List.length_append, List.length_cons]
        omega
    · intro xs ind hN
      rcases xs with _ | ⟨x, xs⟩
      · simp [costT, strElemsTail]
      · have hx : sizeOf x < N := by
          simp only [List.cons.sizeOf_spec] at hN
          omega
        have hxs : sizeOf xs < N := by
          simp only [List.cons.sizeOf_spec] at hN
          omega
        have h1 := ihA x ind hx
        have h2 := ihB xs ind hxs
        simp only [costT, strElemsTail, List.length_append, List.length_cons]
        omega
    · intro ms ind hN
      rcases ms with _ | ⟨⟨k, v⟩, ms⟩
      · simp [costM, strMembersTail]
      · have hv : sizeOf v < N := by
          simp only [List.cons.sizeOf_spec, Prod.mk.sizeOf_spec] at hN
          omega
        have hms : sizeOf ms < N := by
          simp only [List.cons.sizeOf_spec, Prod.mk.sizeOf_spec] at hN
          omega
        have h1 := ihA v ind hv
        have h2 := ihC ms ind hms
        simp only [costM, strMembersTail, escString, List.length_append, List.length_cons]
        omega

theorem costV_le_strV_len (v : Json) (ind : Nat) : costV v ≤ (strV ind v).length :=
  (str_len_ge (sizeOf v + 1)).1 v ind (by omega)

theorem JSONparse_stringifyTop (v : Json) : JSONparse (stringifyTop v) = some v := by
  have hA := (parse_stringify_rt ((strV 0 v).length + 1)).1 v 0 [] []
    (by have := costV_le_strV_len v 0; omega) (by simp) rfl
  have hpv : parseVal ((strV 0 v).length + 1) (strV 0 v) = some (v, []) := by
    simpa using hA
  rw [JSONparse]
  rw [show (stringifyTop v).data = strV 0 v from rfl]
  rw [hpv]
  simp [skipWs]



theorem mem_of_mem_dropWhile {p : Char → Bool} {l : List Char} :
    ∀ c ∈ l.dropWhile p, c ∈ l := by
  induction l with
  | nil => intro c hc; simpa using hc
  | cons a as ih =>
    intro c hc
    rw [List.dropWhile_cons] at hc
    by_cases hp : p a = true
    · rw [if_pos hp] at hc
      exact List.mem_cons_of_mem a (ih c hc)
    · rw [if_neg hp] at hc
      exact hc

theorem dropWhile_head_false {p : Char → Bool} {l : List Char} :
    ∀ c cs, l.dropWhile p = c :: cs → p c = false := by
  induction l with
  | nil => intro c cs h; simp at h
  | cons a as ih =>
    intro c cs h
    rw [List.dropWhile_cons] at h
    by_cases hp : p a = true
    · rw [if_pos hp] at h
      exact ih c cs h
    · rw [if_neg hp] at h
      injection h with h1 _
      subst h1
      simpa using hp

theorem trimWs_not_value_start {c : Char} (ht : isTrimWsChar c = true) :
    c ≠ 'n' ∧ c ≠ 't' ∧ c ≠ 'f' ∧ c ≠ '\x22' ∧ c ≠ '[' ∧ c ≠ '\x7b' ∧
      ¬(c = '-' ∨ isDigitChar c = true) := by
  refine ⟨fun h => absurd (h ▸ ht) (by decide), fun h => absurd (h ▸ ht) (by decide),
    fun h => absurd (h ▸ ht) (by decide), fun h => absurd (h ▸ ht) (by decide),
    fun h => absurd (h ▸ ht) (by decide), fun h => absurd (h ▸ ht) (by decide), ?_⟩
  rintro (h | h)
  · exact absurd (h ▸ ht) (by decide)
  · rw [isDigitChar_iff] at h
    simp [isTrimWsChar] at ht
    omega

theorem JSONparse_blank (s : String) (h : isBlank s = true) : JSONparse s = none := by
  have hall : ∀ c ∈ s.data, isTrimWsChar c = true := by
    rw [isBlank] at h
    simpa [List.all_eq_true] using h
  have hpv : parseVal (s.data.length + 1) s.data = none := by
    rw [parseVal.eq_def]
    simp only []
    rcases hsk : skipWs s.data with _ | ⟨c, cs⟩
    · simp only []
    · have hmem : c ∈ s.data := by
        apply mem_of_mem_dropWhile (p := isWsChar) c
        rw [show s.data.dropWhile isWsChar = skipWs s.data from rfl, hsk]
        simp
      have hct : isTrimWsChar c = true := hall c hmem
      obtain ⟨k1, k2, k3, k4, k5, k6, k7⟩ := trimWs_not_value_start hct
      simp only []
      rw [if_neg k1, if_neg k2, if_neg k3, if_neg k4, if_neg k5, if_neg k6, if_neg k7]
  rw [JSONparse, hpv]

theorem stringifyTop_not_blank (v : Json) : isBlank (stringifyTop v) = false := by
  obtain ⟨c, t, hv, _, _, _, hctw⟩ := strV_cons 0 v
  rw [isBlank, show (stringifyTop v).data = strV 0 v from rfl, hv]
  simp [hctw]

theorem getContentAsJson_of_parse {s : String} {v : Json} (h : JSONparse s = some v) :
    getContentAsJson s = Except.ok v := by
  have hb : isBlank s = false := by
    rcases hb : isBlank s
    · rfl
    · rw [JSONparse_blank s hb] at h
      cases h
  rw [getContentAsJson, if_neg (by simp [hb]), h]

/-! Claim theorems. -/

/-- Claim C1: after a `FromView` message whose content validates, the echo
flag is set; the immediately following Plain document-changed event, with the
view visible, finds it set, clears it, and posts nothing to the view. -/
theorem echo_suppression (s : SessionState) (c : String) (j : Json)
    (hvis : s.visible = true) (hok : getContentAsJson c = Except.ok j) :
    (onDidReceiveMessage s (ViewMsg.updateFromWebview c)).1.isUpdateFromWebview = true ∧
    (onDidChangeTextDocument (onDidReceiveMessage s (ViewMsg.updateFromWebview c)).1 Reason.plain
      (onDidReceiveMessage s (ViewMsg.updateFromWebview c)).1.docText).2 = [] ∧
    (onDidChangeTextDocument (onDidReceiveMessage s (ViewMsg.updateFromWebview c)).1 Reason.plain
      (onDidReceiveMessage s (ViewMsg.updateFromWebview c)).1.docText).1.isUpdateFromWebview
      = false := by
  rcases hval : s.isValidJson <;> rcases hh : s.handleSet <;>
    simp [onDidReceiveMessage, onDidChangeTextDocument, hok, hval, hh, hvis]

/-- Witness for C1 at the session's initial state and content `"0"`. -/
theorem echo_suppression_witness :
    (onDidReceiveMessage (initState "x") (ViewMsg.updateFromWebview "0")).1.isUpdateFromWebview
      = true ∧
    (onDidChangeTextDocument (onDidReceiveMessage (initState "x")
      (ViewMsg.updateFromWebview "0")).1 Reason.plain
      (onDidReceiveMessage (initState "x") (ViewMsg.updateFromWebview "0")).1.docText).2 = [] ∧
    (onDidChangeTextDocument (onDidReceiveMessage (initState "x")
      (ViewMsg.updateFromWebview "0")).1 Reason.plain
      (onDidReceiveMessage (initState "x") (ViewMsg.updateFromWebview "0")).1.docText).1.isUpdateFromWebview
      = false :=
  echo_suppression (initState "x") "0" (Json.num 0) rfl rfl

/-- Claim C2, counterexample: with the view hidden, an Undo document-changed
event posts no message at all — it only sets the buffer flag — so Undo/Redo
events are not forwarded in every session state. -/
theorem undo_while_hidden_sends_nothing :
    (onDidChangeTextDocument { initState "a" with visible := false } Reason.undo "b").2 = [] ∧
    (onDidChangeTextDocument { initState "a" with visible := false } Reason.undo "b").1.isBuffer
      = true := by
  exact ⟨rfl, rfl⟩

/-- Claim C2 (amended): while the view is visible, an Undo or Redo event
always posts the document's current text, regardless of the echo flag (which
it leaves untouched); while the view is hidden the event is buffered instead. -/
theorem undo_redo_always_resync (s : SessionState) (t : String) (r : Reason)
    (hvis : s.visible = true) (hr : r = Reason.undo ∨ r = Reason.redo) :
    (onDidChangeTextDocument s r t).2 =
      [⟨if r = Reason.undo then MsgType.undo else MsgType.redo, t⟩] ∧
    (onDidChangeTextDocument s r t).1.isUpdateFromWebview = s.isUpdateFromWebview := by
  rcases hr with h | h <;> subst h <;> simp [onDidChangeTextDocument, hvis]

/-- Witness for C2's amended theorem with the echo flag set. -/
theorem undo_redo_always_resync_witness :
    (onDidChangeTextDocument { initState "a" with isUpdateFromWebview := true }
      Reason.undo "b").2 = [⟨MsgType.undo, "b"⟩] ∧
    (onDidChangeTextDocument { initState "a" with isUpdateFromWebview := true }
      Reason.undo "b").1.isUpdateFromWebview = true := by
  simpa using undo_redo_always_resync
    { initState "a" with isUpdateFromWebview := true } "b" Reason.undo rfl (Or.inl rfl)

/-- Claim C4, counterexample: an invalid `FromView` submission in a session
with no active notice leaves the document unchanged but activates no
invalid-content notice — the handler's notice is created only by the
`noValidJson` message, never by the failing submission itself. -/
theorem invalid_submission_leaves_no_notice :
    (onDidReceiveMessage (initState "orig") (ViewMsg.updateFromWebview "\x7binvalid")).1.docText
      = "orig" ∧
    (onDidReceiveMessage (initState "orig")
      (ViewMsg.updateFromWebview "\x7binvalid")).1.noticeActive = false := by
  exact ⟨rfl, rfl⟩

/-- Claim C4 (amended): an invalid `FromView` submission never touches the
document and never changes the notice state (the validator's error escapes
instead); it records invalidity, and a notice that was already active stays
active until the next valid submission, which clears it (the notice handle
being initialized). -/
theorem invalid_submission_behavior (s : SessionState) (c c2 : String) (j2 : Json)
    (hbad : getContentAsJson c = Except.error ())
    (hok : getContentAsJson c2 = Except.ok j2)
    (hhandle : s.handleSet = true) :
    (onDidReceiveMessage s (ViewMsg.updateFromWebview c)).1.docText = s.docText ∧
    (onDidReceiveMessage s (ViewMsg.updateFromWebview c)).1.noticeActive = s.noticeActive ∧
    (onDidReceiveMessage s (ViewMsg.updateFromWebview c)).1.isValidJson = false ∧
    (onDidReceiveMessage s (ViewMsg.updateFromWebview c)).2 = some Fault.uncaughtThrow ∧
    (onDidReceiveMessage (onDidReceiveMessage s (ViewMsg.updateFromWebview c)).1
      (ViewMsg.updateFromWebview c2)).1.noticeActive = false ∧
    (onDidReceiveMessage (onDidReceiveMessage s (ViewMsg.updateFromWebview c)).1
      (ViewMsg.updateFromWebview c2)).1.isValidJson = true := by
  simp [onDidReceiveMessage, hbad, hok, hhandle]

/-- Witness for C4's amended theorem: notice active from a prior
`noValidJson`, invalid submission `"\x7binvalid"`, then valid submission `"0"`. -/
theorem invalid_submission_behavior_witness :
    (onDidReceiveMessage noticedState (ViewMsg.updateFromWebview "\x7binvalid")).1.docText
      = "d" ∧
    (onDidReceiveMessage noticedState (ViewMsg.updateFromWebview "\x7binvalid")).1.noticeActive
      = true ∧
    (onDidReceiveMessage
      (onDidReceiveMessage noticedState (ViewMsg.updateFromWebview "\x7binvalid")).1
      (ViewMsg.updateFromWebview "0")).1.noticeActive = false := by
  have h := invalid_submission_behavior noticedState "\x7binvalid" "0" (Json.num 0) rfl rfl rfl
  exact ⟨h.1, h.2.1, h.2.2.2.2.1⟩

/-- Plain mutations while the view is hidden are absorbed into the buffer
flag and the running document text; no message is posted. -/
theorem steps_plain_hidden (t : String) (ts : List String) :
    ∀ s : SessionState, s.visible = false →
      (steps s ((t :: ts).map (Event.docChanged Reason.plain))).2 = [] ∧
      (steps s ((t :: ts).map (Event.docChanged Reason.plain))).1 =
        { s with isBuffer := true, docText := (t :: ts).getLast (List.cons_ne_nil t ts) } := by
  induction ts generalizing t with
  | nil =>
    intro s hvis
    refine ⟨?_, ?_⟩ <;> simp [steps, step, onDidChangeTextDocument, hvis, List.getLast]
  | cons t2 ts ih =>
    intro s hvis
    have hstep : step s (Event.docChanged Reason.plain t) =
        ({ s with docText := t, isBuffer := true }, [], none) := by
      simp [step, onDidChangeTextDocument, hvis]
    have ih2 := ih t2 { s with docText := t, isBuffer := true } hvis
    have key : steps s (List.map (Event.docChanged Reason.plain) (t :: t2 :: ts)) =
        ((steps { s with docText := t, isBuffer := true }
            (List.map (Event.docChanged Reason.plain) (t2 :: ts))).1,
          (steps { s with docText := t, isBuffer := true }
            (List.map (Event.docChanged Reason.plain) (t2 :: ts))).2) := by
      rw [List.map_cons, steps, hstep]
      rfl
    rw [key, ih2.1, ih2.2]
    exact ⟨rfl, by simp [List.getLast_cons]⟩

/-- Claim C3: while the view is hidden, N ≥ 1 consecutive Plain mutations post
nothing and leave the buffer flag set; regaining visibility posts exactly one
message carrying the document's text at flush time (the last mutation's text,
not a buffering-time snapshot) and clears the flag; and every event preserves
the invariant that the buffer flag is set only while the view is hidden. -/
theorem buffered_updates_flush_once :
    (∀ (s : SessionState) (ts : List String), s.visible = false → ∀ hn : ts ≠ [],
      (steps s (ts.map (Event.docChanged Reason.plain))).2 = [] ∧
      (steps s (ts.map (Event.docChanged Reason.plain))).1.isBuffer = true ∧
      (onDidChangeViewState (steps s (ts.map (Event.docChanged Reason.plain))).1 true).2 =
        [⟨MsgType.updateFromExtension, ts.getLast hn⟩] ∧
      (onDidChangeViewState (steps s (ts.map (Event.docChanged Reason.plain))).1 true).1.isBuffer
        = false) ∧
    (∀ (s : SessionState) (e : Event), (s.isBuffer = true → s.visible = false) →
      (step s e).1.isBuffer = true → (step s e).1.visible = false) := by
  constructor
  · rintro s ts hvis hn
    match ts, hn with
    | t :: ts, hn =>
      have h := steps_plain_hidden t ts s hvis
      rw [h.2]
      refine ⟨h.1, rfl, ?_, rfl⟩
      simp [onDidChangeViewState]
  · rintro s e hinv hb
    cases e with
    | docChanged r t =>
      rcases hv : s.visible
      · simp [step, onDidChangeTextDocument, hv]
      · cases r <;>
          simp [step, onDidChangeTextDocument, hv] at hb ⊢ <;>
          exact absurd (hinv hb) (by simp [hv])
    | viewStateChanged v =>
      rcases hbuf : s.isBuffer
      · cases v <;> simp [step, onDidChangeViewState, hbuf] at hb
      · cases v
        · simp [step, onDidChangeViewState, hbuf]
        · simp [step, onDidChangeViewState, hbuf] at hb
    | viewMessage m =>
      cases m with
      | updateFromWebview c =>
        rcases hg : getContentAsJson c with _ | j <;>
          rcases hval : s.isValidJson <;>
          rcases hh : s.handleSet <;>
          simp [step, onDidReceiveMessage, hg, hval, hh] at hb ⊢ <;>
          exact hinv hb
      | noValidJson =>
        rcases hval : s.isValidJson <;>
          simp [step, onDidReceiveMessage, hval] at hb ⊢ <;>
          exact hinv hb

/-- Witness for C3: two buffered mutations, then flush; and one invariant step. -/
theorem buffered_updates_flush_once_witness :
    (steps { initState "x" with visible := false }
      (["a", "b"].map (Event.docChanged Reason.plain))).2 = [] ∧
    (onDidChangeViewState (steps { initState "x" with visible := false }
      (["a", "b"].map (Event.docChanged Reason.plain))).1 true).2 =
      [⟨MsgType.updateFromExtension, "b"⟩] ∧
    ((step (initState "x") (Event.viewStateChanged false)).1.isBuffer = true →
      (step (initState "x") (Event.viewStateChanged false)).1.visible = false) := by
  refine ⟨(buffered_updates_flush_once.1 { initState "x" with visible := false }
      ["a", "b"] rfl (by decide)).1, ?_,
    buffered_updates_flush_once.2 (initState "x") (Event.viewStateChanged false) (by decide)⟩
  exact (buffered_updates_flush_once.1 { initState "x" with visible := false }
    ["a", "b"] rfl (by decide)).2.2.1

/-- Claim C5: evaluation of the code at the failing inputs.  A blank or
whitespace-only submission succeeds, but `getContentAsJson` returns the
JavaScript *string* `'\x7b\x7d'`, which `JSON.stringify` serializes as a quoted
string literal: the text committed to the document is the four characters
`"\x7b\x7d"`, not the two characters `\x7b\x7d` the spec states. -/
theorem blank_submission_commits_quoted_braces :
    (onDidReceiveMessage (initState "d") (ViewMsg.updateFromWebview "")).1.docText
      = "\"\x7b\x7d\"" ∧
    (onDidReceiveMessage (initState "d") (ViewMsg.updateFromWebview "   ")).1.docText
      = "\"\x7b\x7d\"" ∧
    "\"\x7b\x7d\"" ≠ "\x7b\x7d" := by
  refine ⟨rfl, rfl, by decide⟩

/-- Claim C7, counterexample: with two visible text editors on the same file,
the handler closes *both* — zero visible text editors of the document remain,
not exactly one. -/
theorem dedup_closes_every_matching_editor :
    remainingEditors "a.form" [⟨"a.form"⟩, ⟨"a.form"⟩] = [] ∧
    editorsToClose "a.form" [⟨"a.form"⟩, ⟨"a.form"⟩] = [⟨"a.form"⟩, ⟨"a.form"⟩] := by
  exact ⟨rfl, rfl⟩

/-- Claim C7 (amended): whenever more than one text editor is visible in
total, every visible text editor of the session's document is closed and none
of it remains; only the custom webview view (not a text editor) is left. -/
theorem dedup_closes_all_matching (docName : String) (eds : List VisibleEditor)
    (h : 1 < eds.length) :
    (∀ ed ∈ eds, ed.fileName = docName → ed ∈ editorsToClose docName eds) ∧
    (∀ ed ∈ remainingEditors docName eds, ed.fileName ≠ docName) := by
  constructor
  · intro ed hed hname
    simp [editorsToClose, h, hed, hname]
  · intro ed hed
    simp [remainingEditors, h, List.mem_filter] at hed
    exact hed.2

/-- Witness for C7's amended theorem on a concrete editor list. -/
theorem dedup_closes_all_matching_witness :
    (∀ ed ∈ [(⟨"a.form"⟩ : VisibleEditor), ⟨"b.txt"⟩], ed.fileName = "a.form" →
      ed ∈ editorsToClose "a.form" [⟨"a.form"⟩, ⟨"b.txt"⟩]) ∧
    (∀ ed ∈ remainingEditors "a.form" [(⟨"a.form"⟩ : VisibleEditor), ⟨"b.txt"⟩],
      ed.fileName ≠ "a.form") :=
  dedup_closes_all_matching "a.form" [⟨"a.form"⟩, ⟨"b.txt"⟩] (by decide)

/-- Claim C8, counterexample: a `FromView` submission whose content is not
valid JSON makes the handler terminate with the validator's uncaught `Error` —
an exception does escape the view-message handler. -/
theorem invalid_fromview_throws :
    (onDidReceiveMessage (initState "d") (ViewMsg.updateFromWebview "not json")).2 =
      some Fault.uncaughtThrow := rfl

/-- Claim C8 (amended): `noValidJson` never raises; a valid `FromView`
submission never raises provided the notice handle is initialized whenever the
validity flag is down; an invalid `FromView` submission propagates the
validator's error out of the handler. -/
theorem message_handler_fault_conditions (s : SessionState) :
    ((onDidReceiveMessage s ViewMsg.noValidJson).2 = none) ∧
    (∀ c j, getContentAsJson c = Except.ok j → (s.isValidJson = false → s.handleSet = true) →
      (onDidReceiveMessage s (ViewMsg.updateFromWebview c)).2 = none) ∧
    (∀ c, getContentAsJson c = Except.error () →
      (onDidReceiveMessage s (ViewMsg.updateFromWebview c)).2 = some Fault.uncaughtThrow) := by
  refine ⟨?_, ?_, ?_⟩
  · rcases hval : s.isValidJson <;> simp [onDidReceiveMessage, hval]
  · intro c j hok himp
    rcases hval : s.isValidJson
    · simp [onDidReceiveMessage, hok, hval, himp hval]
    · simp [onDidReceiveMessage, hok, hval]
  · intro c hbad
    simp [onDidReceiveMessage, hbad]

/-- Witness for C8's amended theorem at the initial state. -/
theorem message_handler_fault_conditions_witness :
    ((onDidReceiveMessage (initState "d") ViewMsg.noValidJson).2 = none) ∧
    ((onDidReceiveMessage (initState "d") (ViewMsg.updateFromWebview "0")).2 = none) ∧
    ((onDidReceiveMessage (initState "d") (ViewMsg.updateFromWebview "not json")).2 =
      some Fault.uncaughtThrow) :=
  ⟨(message_handler_fault_conditions (initState "d")).1,
   (message_handler_fault_conditions (initState "d")).2.1 "0" (Json.num 0) rfl
     (fun h => absurd h (by decide)),
   (message_handler_fault_conditions (initState "d")).2.2 "not json" rfl⟩

/-- Claim C9, counterexample: for a document whose text is the seven
characters `\x7b"a":1\x7d`, the initial message does not carry the
pretty-printed form — the code posts `document.getText()` verbatim. -/
theorem initial_message_is_raw_text :
    initialMessage "\x7b\"a\":1\x7d" ≠ ⟨MsgType.updateFromExtension, "\x7b\n    \"a\": 1\n\x7d"⟩ := by
  decide

/-- Claim C9 (amended): the initial message carries the document's text
verbatim; the pretty-printed form the spec states is exactly what the
normalizer would produce for that content, but the initial send performs no
normalization. -/
theorem initial_message_verbatim :
    initialMessage "\x7b\"a\":1\x7d" = ⟨MsgType.updateFromExtension, "\x7b\"a\":1\x7d"⟩ ∧
    stringifyTop (Json.obj [("a", Json.num 1)]) = "\x7b\n    \"a\": 1\n\x7d" ∧
    JSONparse "\x7b\"a\":1\x7d" = some (Json.obj [("a", Json.num 1)]) := by
  exact ⟨rfl, rfl, rfl⟩

/-- Claim C10: a `FromView` submission with invalid content leaves
`isValidJson = false` with the `jsonErrorMsg` handle never assigned and no
notice ever created; the next valid submission then reaches the clear-notice
branch and calls `dispose` on the uninitialized handle. -/
theorem dispose_on_uninitialized_handle :
    (onDidReceiveMessage (initState "d") (ViewMsg.updateFromWebview "\x7bbad")).1.isValidJson
      = false ∧
    (onDidReceiveMessage (initState "d") (ViewMsg.updateFromWebview "\x7bbad")).1.handleSet
      = false ∧
    (onDidReceiveMessage (initState "d") (ViewMsg.updateFromWebview "\x7bbad")).1.noticeActive
      = false ∧
    (onDidReceiveMessage
      (onDidReceiveMessage (initState "d") (ViewMsg.updateFromWebview "\x7bbad")).1
      (ViewMsg.updateFromWebview "0")).2 = some Fault.disposeUninitialized := by
  refine ⟨rfl, rfl, rfl, rfl⟩

/-- Claim C6: the validate-and-normalize pipeline is idempotent on every
string that parses as valid JSON: the committed text of `s` is the canonical
pretty-printed form of its value, and running the pipeline on that committed
text commits the very same text. -/
theorem validator_idempotent (s : String) (v : Json) (h : JSONparse s = some v) :
    normalizedCommitText s = some (stringifyTop v) ∧
    normalizedCommitText (stringifyTop v) = some (stringifyTop v) := by
  constructor
  · rw [normalizedCommitText, getContentAsJson_of_parse h]
  · rw [normalizedCommitText, getContentAsJson_of_parse (JSONparse_stringifyTop v)]

/-- Witness for C6 on the concrete input `"[0, 1]"`. -/
theorem validator_idempotent_witness :
    normalizedCommitText "[0, 1]" = some "[\n    0,\n    1\n]" ∧
    normalizedCommitText "[\n    0,\n    1\n]" = some "[\n    0,\n    1\n]" := by
  have h := validator_idempotent "[0, 1]" (Json.arr [Json.num 0, Json.num 1]) rfl
  have e : stringifyTop (Json.arr [Json.num 0, Json.num 1]) = "[\n    0,\n    1\n]" := rfl
  rw [e] at h
  exact h

end JsonEditor
